import Mathlib

/-!
Shallow embedding of the ODL functional/operator algebra and of the
difference-of-convex solver family (`dca`, `prox_dca`, `doubleprox_dc`),
together with proofs of the algebraic contracts the test suite exercises.
The repository ships only the test files for this subsystem, so the
functionals, combinators and solvers themselves are modelled from the
specification; scalars are rationals, vectors are coordinate lists tagged
with their space.
-/

/-- A vector space (discretization) identified by a structural tag; two
spaces are compatible exactly when their tags are equal. -/
structure Space where
  tag : ℕ
deriving DecidableEq

/-- An element of a space: the space tag together with its coordinates. -/
structure Vec where
  sp : Space
  val : List ℚ
deriving DecidableEq

instance : Add Vec :=
  ⟨fun x y => ⟨x.sp, List.zipWith (fun a b => a + b) x.val y.val⟩⟩

instance : Sub Vec :=
  ⟨fun x y => ⟨x.sp, List.zipWith (fun a b => a - b) x.val y.val⟩⟩

instance : Mul Vec :=
  ⟨fun x y => ⟨x.sp, List.zipWith (fun a b => a * b) x.val y.val⟩⟩

instance : SMul ℚ Vec :=
  ⟨fun c x => ⟨x.sp, x.val.map (fun a => c * a)⟩⟩

/-- Euclidean inner product of two elements. -/
def Vec.inner (x y : Vec) : ℚ :=
  (List.zipWith (fun a b => a * b) x.val y.val).sum

/-- The zero element with the same shape and space as a given element. -/
def Vec.zeroLike (x : Vec) : Vec :=
  ⟨x.sp, x.val.map (fun _ => 0)⟩

/-- Error taxonomy of the spec: domain/type mismatches surface as TypeError,
invalid scalings as ValueError, missing closed forms as NotImplementedError. -/
inductive Err where
  | typeError
  | valueError
  | notImplementedError
deriving DecidableEq

/-- A linear operator with an explicit adjoint, as consumed by the solvers. -/
structure Op where
  dom : Space
  app : Vec → Vec
  adj : Vec → Vec

/-- The identity operator on a space. -/
def IdentityOperator (sp : Space) : Op :=
  ⟨sp, fun v => v, fun v => v⟩

/-- Sign of a rational; the subgradient selection used for the L1 norm
(a value of the subdifferential of the absolute value, 0 at the kink). -/
def signQ (q : ℚ) : ℚ :=
  if q < 0 then -1 else if 0 < q then 1 else 0

/-- Absolute value of a rational. -/
def absQ (q : ℚ) : ℚ :=
  if q < 0 then -q else q

/-- Modelled from the spec: the closed functional algebra of the repository
(the `Functional` class hierarchy, missing from the shipped sources) as a
tagged-variant type, per the design note of the spec: the base functionals
`L1Norm`, `L2NormSquared`, `ZeroFunctional` plus one variant per combinator
(left/right scalar multiplication, sum, sum with a scalar, translation, and
the four convex-conjugate transforms). -/
inductive Func where
  | l1norm (sp : Space)
  | l2normSquare (sp : Space)
  | zeroFunctional (sp : Space)
  | lmul (c : ℚ) (F : Func)
  | rmul (F : Func) (c : ℚ)
  | fsum (F G : Func)
  | scalarSum (F : Func) (c : ℚ)
  | translated (F : Func) (y : Vec)
  | cctrans (B : Func) (y : Vec)
  | ccargscal (B : Func) (c : ℚ)
  | ccfuncscal (B : Func) (c : ℚ)
  | cclinpert (B : Func) (y : Vec)
deriving DecidableEq

/-- Domain space of a functional. -/
def Func.dom : Func → Space
  | .l1norm sp => sp
  | .l2normSquare sp => sp
  | .zeroFunctional sp => sp
  | .lmul _ F => F.dom
  | .rmul F _ => F.dom
  | .fsum F _ => F.dom
  | .scalarSum F _ => F.dom
  | .translated F _ => F.dom
  | .cctrans B _ => B.dom
  | .ccargscal B _ => B.dom
  | .ccfuncscal B _ => B.dom
  | .cclinpert B _ => B.dom

/-- Modelled from the spec: evaluation of each functional (the missing
`Functional.__call__` implementations).  `L1Norm` sums absolute values,
`L2NormSquared` is the squared norm, and each combinator evaluates by the
formula of its spec section. -/
def Func.eval : Func → Vec → ℚ
  | .l1norm _, x => (x.val.map absQ).sum
  | .l2normSquare _, x => Vec.inner x x
  | .zeroFunctional _, _ => 0
  | .lmul c F, x => c * F.eval x
  | .rmul F c, x => F.eval (c • x)
  | .fsum F G, x => F.eval x + G.eval x
  | .scalarSum F c, x => F.eval x + c
  | .translated F y, x => F.eval (x - y)
  | .cctrans B y, x => B.eval x + Vec.inner x y
  | .ccargscal B c, x => B.eval ((1 / c) • x)
  | .ccfuncscal B c, x => c * B.eval ((1 / c) • x)
  | .cclinpert B y, x => B.eval (x - y)

/-- Modelled from the spec: the gradient of each functional (the missing
`Functional.gradient` implementations).  The L1 gradient is the sign vector
(a subgradient selection); each combinator uses the gradient identity of its
spec section. -/
def Func.grad : Func → Vec → Vec
  | .l1norm _, x => ⟨x.sp, x.val.map signQ⟩
  | .l2normSquare _, x => (2 : ℚ) • x
  | .zeroFunctional _, x => x.zeroLike
  | .lmul c F, x => c • F.grad x
  | .rmul F c, x => c • F.grad (c • x)
  | .fsum F G, x => F.grad x + G.grad x
  | .scalarSum F _, x => F.grad x
  | .translated F y, x => F.grad (x - y)
  | .cctrans B y, x => B.grad x + y
  | .ccargscal B c, x => (1 / c) • B.grad ((1 / c) • x)
  | .ccfuncscal B c, x => B.grad ((1 / c) • x)
  | .cclinpert B y, x => B.grad (x - y)

/-- Modelled from the spec: the directional derivative `F.derivative(x)(p)`
(the missing `Functional.derivative` implementations).  Combinators whose
derivative the spec or the test suite states explicitly carry that formula;
every other functional uses the documented default, the inner product of the
direction with the gradient. -/
def Func.deriv : Func → Vec → Vec → ℚ
  | .lmul c F, x, p => c * F.deriv x p
  | .rmul F c, x, p => c * F.deriv (c • x) p
  | .scalarSum F _, x, p => F.deriv x p
  | .translated F y, x, p => Vec.inner p (F.grad (x - y))
  | F, x, p => Vec.inner p (F.grad x)

/-- Modelled from the spec: the proximal factory of the quadratic
perturbation `F + a*norm^2 + inner u` of a functional with proximal factory
`prox` (the missing `proximal_quadratic_perturbation` helper), in the closed
form `prox (sigma*c) (c*(x - sigma*u))` with `c = 1/(2*sigma*a + 1)`. -/
def proximal_quadratic_perturbation (prox : ℚ → Vec → Vec) (a : ℚ) (u : Vec) :
    ℚ → Vec → Vec :=
  fun σ x =>
    let c := 1 / (2 * σ * a + 1)
    prox (σ * c) (c • (x - σ • u))

/-- Modelled from the spec: the proximal factory `F.proximal` of each
functional (missing from the shipped sources).  Scalar multiples require a
positive scalar (ValueError otherwise), the generic sum has no closed form
(NotImplementedError), adding a scalar leaves the proximal unchanged,
translation shifts it, and the conjugate-translation transform is the
quadratic perturbation with zero quadratic part. -/
def Func.proximal : Func → Except Err (ℚ → Vec → Vec)
  | .l1norm _ =>
      .ok (fun σ x => ⟨x.sp, x.val.map (fun t =>
        if σ < t then t - σ else if t < -σ then t + σ else 0)⟩)
  | .l2normSquare _ => .ok (fun σ x => (1 / (2 * σ + 1)) • x)
  | .zeroFunctional _ => .ok (fun _ x => x)
  | .lmul c F =>
      if c ≤ 0 then .error .valueError
      else do
        let p ← F.proximal
        .ok (fun σ x => p (σ * c) x)
  | .rmul F c =>
      if c ≤ 0 then .error .valueError
      else do
        let p ← F.proximal
        .ok (fun σ x => (1 / c) • p (σ * c ^ 2) (c • x))
  | .fsum _ _ => .error .notImplementedError
  | .scalarSum F _ => F.proximal
  | .translated F y => do
      let p ← F.proximal
      .ok (fun σ x => y + p σ (x - y))
  | .cctrans B y => do
      let p ← B.proximal
      .ok (proximal_quadratic_perturbation p 0 y)
  | .ccargscal _ _ => .error .notImplementedError
  | .ccfuncscal _ _ => .error .notImplementedError
  | .cclinpert _ _ => .error .notImplementedError

/-- Modelled from the spec: the convex-conjugate accessor
`F.conjugate_functional` (missing from the shipped sources).  The conjugate
of `L2NormSquared` is a quarter of the squared norm; a left (right) scalar
multiple requires a positive scalar, ValueError otherwise, and delegates to
the functional (argument) scaling transform; adding a scalar subtracts it
from the conjugate; translation delegates to the conjugate-translation
transform; the generic sum and the remaining functionals expose no closed
form (NotImplementedError). -/
def Func.conjugate : Func → Except Err Func
  | .l1norm _ => .error .notImplementedError
  | .l2normSquare sp => .ok (.lmul (1 / 4) (.l2normSquare sp))
  | .zeroFunctional _ => .error .notImplementedError
  | .lmul c F =>
      if c ≤ 0 then .error .valueError
      else do
        let B ← F.conjugate
        .ok (.ccfuncscal B c)
  | .rmul F c =>
      if c ≤ 0 then .error .valueError
      else do
        let B ← F.conjugate
        .ok (.ccargscal B c)
  | .fsum _ _ => .error .notImplementedError
  | .scalarSum F c => do
      let B ← F.conjugate
      .ok (.scalarSum B (-c))
  | .translated F y => do
      let B ← F.conjugate
      .ok (.cctrans B y)
  | .cctrans _ _ => .error .notImplementedError
  | .ccargscal _ _ => .error .notImplementedError
  | .ccfuncscal _ _ => .error .notImplementedError
  | .cclinpert _ _ => .error .notImplementedError

/-- Modelled from the spec: the proximal factory of the convex conjugate,
as used by the dual step of `doubleprox_dc`.  The conjugate of the zero
functional is the indicator of the origin, whose proximal maps every point
to zero; every other functional goes through its conjugate accessor. -/
def Func.conjProximal : Func → Except Err (ℚ → Vec → Vec)
  | .zeroFunctional _ => .ok (fun _ x => x.zeroLike)
  | F => do
      let B ← F.conjugate
      B.proximal

/-- An operand of functional addition as received from the caller: either
another functional or a plain (non-scalar-valued) operator. -/
inductive Operand where
  | func (F : Func)
  | oper (O : Op)

/-- A scalar as received from the caller: a complex number with rational
real and imaginary parts; it is a real scalar when the imaginary part
vanishes. -/
structure CScalar where
  re : ℚ
  im : ℚ
deriving DecidableEq

/-- An argument that may be a bare number or a space element. -/
inductive Arg where
  | num (q : ℚ)
  | vec (v : Vec)

/-- Modelled from the spec: the translation method `F.translate(y)` (missing
from the shipped sources); the translation must belong to the functional's
domain, else TypeError. -/
def Func.translate (F : Func) (y : Vec) : Except Err Func :=
  if y.sp = F.dom then .ok (.translated F y) else .error .typeError

/-- Modelled from the spec: functional addition `F + other` (missing from
the shipped sources); the other operand must be a functional, else
TypeError, and the two domains must coincide, else TypeError. -/
def Func.add (F : Func) (other : Operand) : Except Err Func :=
  match other with
  | .oper _ => .error .typeError
  | .func G => if F.dom = G.dom then .ok (.fsum F G) else .error .typeError

/-- Modelled from the spec: addition of a scalar, `F + c` (missing from the
shipped sources); the scalar must be real, else TypeError. -/
def Func.plusScalar (F : Func) (c : CScalar) : Except Err Func :=
  if c.im = 0 then .ok (.scalarSum F c.re) else .error .typeError

/-- Modelled from the spec: the `ConvexConjugateTranslation` constructor
(missing from the shipped sources); the translation must be a vector-space
element of the functional's domain — a bare number or an element of another
space gives TypeError. -/
def ConvexConjugateTranslation (B : Func) (a : Arg) : Except Err Func :=
  match a with
  | .num _ => .error .typeError
  | .vec v => if v.sp = B.dom then .ok (.cctrans B v) else .error .typeError

/-- Modelled from the spec: right multiplication of a functional with a
vector, `F * y` (the missing `OperatorRightVectorMult` composition); the
vector must lie in the functional's domain, else TypeError, and the result
is the operator mapping `x` to `F(y * x)`. -/
def OperatorRightVectorMult (F : Func) (y : Vec) : Except Err (Vec → ℚ) :=
  if y.sp = F.dom then .ok (fun x => F.eval (y * x)) else .error .typeError

/-- Modelled from the spec: left multiplication of a functional with a
vector, `y * F` (the missing `FunctionalLeftVectorMult` composition); the
vector may come from any space since it only scales the scalar output, and
the result maps `x` to `F(x) * y`. -/
def FunctionalLeftVectorMult (y : Vec) (F : Func) : Vec → Vec :=
  fun x => F.eval x • y

/-- Iterate a fallible step a fixed number of times, threading the state;
the model of a solver loop updating its element in place. -/
def iterE (f : Vec → Except Err Vec) : ℕ → Vec → Except Err Vec
  | 0, x => .ok x
  | n + 1, x => (f x).bind (iterE f n)

/-- Iterate a fallible step on a primal/dual pair a fixed number of times. -/
def iterE2 (f : Vec × Vec → Except Err (Vec × Vec)) :
    ℕ → Vec × Vec → Except Err (Vec × Vec)
  | 0, s => .ok s
  | n + 1, s => (f s).bind (iterE2 f n)

/-- Modelled from the spec: one step of the classical d.c. algorithm —
take the subgradient `v` of `h` at `x` and replace `x` by the minimizer of
`g - inner v`, i.e. the gradient of the conjugate of `g` at `v`. -/
def dcaStep (g h : Func) (x : Vec) : Except Err Vec := do
  let gstar ← g.conjugate
  .ok (gstar.grad (h.grad x))

/-- Modelled from the spec: the solver `dca(x, g, h, niter)` — exactly
`niter` steps with no early exit, threading the mutated element. -/
def dca (x : Vec) (g h : Func) (niter : ℕ) : Except Err Vec :=
  iterE (dcaStep g h) niter x

/-- Modelled from the spec: one step of the proximal d.c. algorithm —
replace the exact argmin by `prox_{gamma*g}(x + gamma*v)` with `v` a
subgradient of `h` at `x`. -/
def proxDcaStep (g h : Func) (γ : ℚ) (x : Vec) : Except Err Vec := do
  let p ← g.proximal
  .ok (p γ (x + γ • h.grad x))

/-- Modelled from the spec: the solver `prox_dca(x, g, h, niter, gamma)` —
exactly `niter` proximal steps with no early exit. -/
def prox_dca (x : Vec) (g h : Func) (niter : ℕ) (γ : ℚ) : Except Err Vec :=
  iterE (proxDcaStep g h γ) niter x

/-- Modelled from the spec: one step of the double-proximal primal-dual d.c.
algorithm — a primal proximal step on `g` driven by a subgradient of `h` and
the adjoint of `K` applied to the dual variable, followed by a dual proximal
step on the conjugate of `phi` through `K`, scaled by `gamma` and `mu`. -/
def doubleproxStep (g h phi : Func) (K : Op) (γ μ : ℚ) (s : Vec × Vec) :
    Except Err (Vec × Vec) := do
  let pg ← g.proximal
  let pc ← phi.conjProximal
  let xn := pg γ (s.1 + γ • (h.grad s.1 - K.adj s.2))
  let yn := pc μ (s.2 + μ • K.app xn)
  .ok (xn, yn)

/-- Modelled from the spec: the solver
`doubleprox_dc(x, y, g, h, phi, K, niter, gamma, mu)` — exactly `niter`
alternating primal/dual proximal steps with no early exit. -/
def doubleprox_dc (x y : Vec) (g h phi : Func) (K : Op) (niter : ℕ)
    (γ μ : ℚ) : Except Err (Vec × Vec) :=
  iterE2 (doubleproxStep g h phi K γ μ) niter (x, y)

/-- The one-dimensional space of the d.c. test scenario. -/
def dcSpace : Space := ⟨0⟩

/-- A one-dimensional element of the d.c. test scenario space. -/
def dcVec (q : ℚ) : Vec := ⟨dcSpace, [q]⟩

/-- The convex part of the d.c. scenario:
`g = a/2 * L2NormSquared(space).translated(b)` with `a = 1/2`, `b = 1/2`. -/
def dcG : Func := .lmul (1 / 4) (.translated (.l2normSquare dcSpace) (dcVec (1 / 2)))

/-- The concave part of the d.c. scenario: `h = L1Norm(space)`. -/
def dcH : Func := .l1norm dcSpace

/-- The coupling functional of the double-prox scenario: the zero
functional. -/
def dcPhi : Func := .zeroFunctional dcSpace

/-- The coupling operator of the double-prox scenario: the identity. -/
def dcK : Op := IdentityOperator dcSpace

/-- The starting primal element of the d.c. scenario, `x = -1/2`. -/
def dcX0 : Vec := dcVec (-(1 / 2))

/-- The starting dual element of the double-prox scenario, `y = 3`. -/
def dcY0 : Vec := dcVec 3

/-- The distance from a scalar to the solution set of the d.c. scenario,
`[b - 1/a, 0, b + 1/a] = [-3/2, 0, 5/2]`. -/
def minDistQ (t : ℚ) : ℚ :=
  min (absQ (-(3 / 2) - t)) (min (absQ (0 - t)) (absQ (5 / 2 - t)))

/-- First coordinate of a solver result, with a sentinel on failure. -/
def headQ : Except Err Vec → ℚ
  | .ok v => v.val.headD 99
  | .error _ => 99

/-- Whether a solver run succeeded. -/
def isOkE : Except Err Vec → Bool
  | .ok _ => true
  | .error _ => false

/-- The primal component of a primal/dual solver result. -/
def fstE (r : Except Err (Vec × Vec)) : Except Err Vec :=
  r.map Prod.fst

attribute [local semireducible] Rat.add Rat.sub Rat.mul Rat.inv

/-- A second, structurally different space, used for the wrong-space error
cases of the test suite. -/
def wrongSpace : Space := ⟨1⟩

/-- An element of the wrong space. -/
def wrongVec : Vec := ⟨wrongSpace, [1]⟩

/-- The proximal factory of `L2NormSquared`, as exposed by the model. -/
def proxL2NS : ℚ → Vec → Vec := fun σ x => (1 / (2 * σ + 1)) • x

/-- The convex conjugate of `L2NormSquared` on the scenario space, a quarter
of the squared norm. -/
def conjL2NS : Func := .lmul (1 / 4) (.l2normSquare dcSpace)

theorem zip_mul_map_smul (c : ℚ) (a : List ℚ) : ∀ b : List ℚ,
    (List.zipWith (fun s t => s * t) a (b.map (fun t => c * t))).sum
      = c * (List.zipWith (fun s t => s * t) a b).sum := by
  induction a with
  | nil => intro b; simp
  | cons s a ih =>
    intro b
    cases b with
    | nil => simp
    | cons t b =>
      simp only [List.map_cons, List.zipWith_cons_cons, List.sum_cons, ih b]
      ring

theorem Vec.inner_smul (c : ℚ) (p g : Vec) :
    Vec.inner p (c • g) = c * Vec.inner p g :=
  zip_mul_map_smul c p.val g.val

theorem Vec.smul_smul_eq (a b : ℚ) (x : Vec) : a • (b • x) = (a * b) • x := by
  cases x with
  | mk sp val =>
    show Vec.mk sp ((val.map fun t => b * t).map fun t => a * t)
        = Vec.mk sp (val.map fun t => a * b * t)
    rw [List.map_map]
    simp [Function.comp, mul_assoc]

theorem Vec.one_smul_eq (x : Vec) : (1 : ℚ) • x = x := by
  cases x with
  | mk sp val =>
    show Vec.mk sp (val.map fun t => (1 : ℚ) * t) = Vec.mk sp val
    simp

/-- C2: for every functional of the algebra and every point and direction,
the directional derivative is the inner product of the direction with the
gradient — the documented default of `Functional.derivative`, which also
holds for every combinator carrying an explicit derivative formula. -/
theorem derivative_is_inner_with_gradient (F : Func) (x p : Vec) :
    F.deriv x p = Vec.inner p (F.grad x) := by
  induction F generalizing x with
  | l1norm sp => rfl
  | l2normSquare sp => rfl
  | zeroFunctional sp => rfl
  | lmul c G ih =>
    show c * G.deriv x p = Vec.inner p (c • G.grad x)
    rw [ih x, Vec.inner_smul]
  | rmul G c ih =>
    show c * G.deriv (c • x) p = Vec.inner p (c • G.grad (c • x))
    rw [ih (c • x), Vec.inner_smul]
  | fsum G H ihG ihH => rfl
  | scalarSum G c ih =>
    show G.deriv x p = Vec.inner p (G.grad x)
    exact ih x
  | translated G y ih => rfl
  | cctrans B y ih => rfl
  | ccargscal B c ih => rfl
  | ccfuncscal B c ih => rfl
  | cclinpert B y ih => rfl

/-- C4: evaluation and gradient identities of scalar multiplication — right
multiplication evaluates the functional at the scaled argument with gradient
`c * grad F (c*x)`, left multiplication scales the value with gradient
`c * grad F x`. -/
theorem scalar_multiplication_eval_grad (F : Func) (c : ℚ) (x : Vec) :
    Func.eval (.rmul F c) x = F.eval (c • x) ∧
    Func.grad (.rmul F c) x = c • F.grad (c • x) ∧
    Func.eval (.lmul c F) x = c * F.eval x ∧
    Func.grad (.lmul c F) x = c • F.grad x :=
  ⟨rfl, rfl, rfl, rfl⟩

/-- C3: accessing the conjugate or the proximal of a non-positive left or
right scalar multiple fails with ValueError; for a positive scalar `c` the
conjugate of `c*F` at `y` is `c * Fstar(y/c)`, the conjugate of `F*c` at `y`
is `Fstar(y/c)`, the proximal of `c*F` at step `t` is the proximal of `F` at
step `t*c`, and the proximal of `F*c` at step `t` is
`(1/c) * prox_{t*c^2 F}(c*x)`. -/
theorem scalar_multiplication_conj_prox (F Fstar : Func) (p : ℚ → Vec → Vec)
    (c cneg σ : ℚ) (y x : Vec)
    (hconj : F.conjugate = .ok Fstar) (hprox : F.proximal = .ok p)
    (hc : 0 < c) (hneg : cneg ≤ 0) :
    Func.conjugate (.lmul cneg F) = .error .valueError ∧
    Func.conjugate (.rmul F cneg) = .error .valueError ∧
    Func.proximal (.lmul cneg F) = .error .valueError ∧
    Func.proximal (.rmul F cneg) = .error .valueError ∧
    (∃ G, Func.conjugate (.lmul c F) = .ok G ∧
      G.eval y = c * Fstar.eval ((1 / c) • y)) ∧
    (∃ G, Func.conjugate (.rmul F c) = .ok G ∧
      G.eval y = Fstar.eval ((1 / c) • y)) ∧
    (∃ q, Func.proximal (.lmul c F) = .ok q ∧ q σ x = p (σ * c) x) ∧
    (∃ q, Func.proximal (.rmul F c) = .ok q ∧
      q σ x = (1 / c) • p (σ * c ^ 2) (c • x)) := by
  refine ⟨?_, ?_, ?_, ?_, ?_, ?_, ?_, ?_⟩
  · simp [Func.conjugate, hneg]
  · simp [Func.conjugate, hneg]
  · simp [Func.proximal, hneg]
  · simp [Func.proximal, hneg]
  · refine ⟨.ccfuncscal Fstar c, ?_, rfl⟩
    simp only [Func.conjugate]
    rw [if_neg (not_le.mpr hc), hconj]
    rfl
  · refine ⟨.ccargscal Fstar c, ?_, rfl⟩
    simp only [Func.conjugate]
    rw [if_neg (not_le.mpr hc), hconj]
    rfl
  · refine ⟨fun σ x => p (σ * c) x, ?_, rfl⟩
    simp only [Func.proximal]
    rw [if_neg (not_le.mpr hc), hprox]
    rfl
  · refine ⟨fun σ x => (1 / c) • p (σ * c ^ 2) (c • x), ?_, rfl⟩
    simp only [Func.proximal]
    rw [if_neg (not_le.mpr hc), hprox]
    rfl

/-- Witness for the scalar multiplication contract: `F = L2NormSquared`,
`c = 2`, `cneg = -1`, step and points concrete. -/
theorem scalar_multiplication_conj_prox_witness :
    Func.conjugate (.l2normSquare dcSpace) = .ok conjL2NS ∧
    Func.proximal (.l2normSquare dcSpace) = .ok proxL2NS ∧
    (0 : ℚ) < 2 ∧ (-1 : ℚ) ≤ 0 ∧
    (Func.conjugate (.lmul (-1) (.l2normSquare dcSpace)) = .error .valueError ∧
     Func.conjugate (.rmul (.l2normSquare dcSpace) (-1)) = .error .valueError ∧
     Func.proximal (.lmul (-1) (.l2normSquare dcSpace)) = .error .valueError ∧
     Func.proximal (.rmul (.l2normSquare dcSpace) (-1)) = .error .valueError ∧
     (∃ G, Func.conjugate (.lmul 2 (.l2normSquare dcSpace)) = .ok G ∧
       G.eval (dcVec 1) = 2 * conjL2NS.eval (((1 : ℚ) / 2) • dcVec 1)) ∧
     (∃ G, Func.conjugate (.rmul (.l2normSquare dcSpace) 2) = .ok G ∧
       G.eval (dcVec 1) = conjL2NS.eval (((1 : ℚ) / 2) • dcVec 1)) ∧
     (∃ q, Func.proximal (.lmul 2 (.l2normSquare dcSpace)) = .ok q ∧
       q 1 (dcVec 1) = proxL2NS (1 * 2) (dcVec 1)) ∧
     (∃ q, Func.proximal (.rmul (.l2normSquare dcSpace) 2) = .ok q ∧
       q 1 (dcVec 1) = ((1 : ℚ) / 2) • proxL2NS (1 * 2 ^ 2) (((2 : ℚ)) • dcVec 1))) :=
  ⟨rfl, rfl, by norm_num, by norm_num,
    scalar_multiplication_conj_prox (.l2normSquare dcSpace) conjL2NS proxL2NS
      2 (-1) 1 (dcVec 1) (dcVec 1) rfl rfl (by norm_num) (by norm_num)⟩

/-- C5: translating a functional by a vector of another space fails with
TypeError; otherwise the translated functional evaluates at `x - y`, has
gradient `grad F (x - y)`, directional derivative `inner p (grad F (x - y))`,
proximal `y + prox_{sigma F}(x - y)`, and its conjugate is the
conjugate-translation transform of the conjugate of `F`. -/
theorem translation_of_functional_spec (F Fstar : Func) (p : ℚ → Vec → Vec)
    (y w x q : Vec) (σ : ℚ)
    (hy : y.sp = F.dom) (hw : w.sp ≠ F.dom)
    (hprox : F.proximal = .ok p) (hconj : F.conjugate = .ok Fstar) :
    F.translate w = .error .typeError ∧
    F.translate y = .ok (.translated F y) ∧
    Func.eval (.translated F y) x = F.eval (x - y) ∧
    Func.grad (.translated F y) x = F.grad (x - y) ∧
    Func.deriv (.translated F y) x q = Vec.inner q (F.grad (x - y)) ∧
    (∃ r, Func.proximal (.translated F y) = .ok r ∧
      r σ x = y + p σ (x - y)) ∧
    Func.conjugate (.translated F y) = .ok (.cctrans Fstar y) := by
  refine ⟨?_, ?_, rfl, rfl, rfl, ?_, ?_⟩
  · simp [Func.translate, hw]
  · simp [Func.translate, hy]
  · refine ⟨fun σ x => y + p σ (x - y), ?_, rfl⟩
    simp only [Func.proximal]
    rw [hprox]
    rfl
  · simp only [Func.conjugate]
    rw [hconj]
    rfl

/-- Witness for the translation contract: `F = L2NormSquared`, translation
and evaluation points concrete, wrong-space vector from another space. -/
theorem translation_of_functional_witness :
    (dcVec 1).sp = Func.dom (.l2normSquare dcSpace) ∧
    wrongVec.sp ≠ Func.dom (.l2normSquare dcSpace) ∧
    Func.proximal (.l2normSquare dcSpace) = .ok proxL2NS ∧
    Func.conjugate (.l2normSquare dcSpace) = .ok conjL2NS ∧
    (Func.translate (.l2normSquare dcSpace) wrongVec = .error .typeError ∧
     Func.translate (.l2normSquare dcSpace) (dcVec 1)
       = .ok (.translated (.l2normSquare dcSpace) (dcVec 1)) ∧
     Func.eval (.translated (.l2normSquare dcSpace) (dcVec 1)) (dcVec 3)
       = Func.eval (.l2normSquare dcSpace) (dcVec 3 - dcVec 1) ∧
     Func.grad (.translated (.l2normSquare dcSpace) (dcVec 1)) (dcVec 3)
       = Func.grad (.l2normSquare dcSpace) (dcVec 3 - dcVec 1) ∧
     Func.deriv (.translated (.l2normSquare dcSpace) (dcVec 1)) (dcVec 3) (dcVec 2)
       = Vec.inner (dcVec 2) (Func.grad (.l2normSquare dcSpace) (dcVec 3 - dcVec 1)) ∧
     (∃ r, Func.proximal (.translated (.l2normSquare dcSpace) (dcVec 1)) = .ok r ∧
       r 1 (dcVec 3) = dcVec 1 + proxL2NS 1 (dcVec 3 - dcVec 1)) ∧
     Func.conjugate (.translated (.l2normSquare dcSpace) (dcVec 1))
       = .ok (.cctrans conjL2NS (dcVec 1))) :=
  ⟨rfl, by decide, rfl, rfl,
    translation_of_functional_spec (.l2normSquare dcSpace) conjL2NS proxL2NS
      (dcVec 1) wrongVec (dcVec 3) (dcVec 2) 1 rfl (by decide) rfl rfl⟩

/-- C6: constructing a conjugate translation from a bare number or from a
vector of another space fails with TypeError; for a vector `v` of the domain
the transform evaluates to `B(x) + inner x v` with gradient `grad B x + v`;
in particular for the conjugate of `L2NormSquared` the value is
`1/4 * norm(x)^2 + inner x v` and the gradient is `x/2 + v`. -/
theorem convex_conjugate_translation_spec (B : Func) (v w x : Vec) (q : ℚ)
    (sp : Space) (hv : v.sp = B.dom) (hw : w.sp ≠ B.dom) :
    ConvexConjugateTranslation B (.num q) = .error .typeError ∧
    ConvexConjugateTranslation B (.vec w) = .error .typeError ∧
    ConvexConjugateTranslation B (.vec v) = .ok (.cctrans B v) ∧
    Func.eval (.cctrans B v) x = B.eval x + Vec.inner x v ∧
    Func.grad (.cctrans B v) x = B.grad x + v ∧
    Func.conjugate (.l2normSquare sp) = .ok (.lmul (1 / 4) (.l2normSquare sp)) ∧
    Func.eval (.cctrans (.lmul (1 / 4) (.l2normSquare sp)) v) x
      = 1 / 4 * Vec.inner x x + Vec.inner x v ∧
    Func.grad (.cctrans (.lmul (1 / 4) (.l2normSquare sp)) v) x
      = ((1 : ℚ) / 2) • x + v := by
  refine ⟨rfl, ?_, ?_, rfl, rfl, rfl, rfl, ?_⟩
  · simp [ConvexConjugateTranslation, hw]
  · simp [ConvexConjugateTranslation, hv]
  · show ((1 : ℚ) / 4) • ((2 : ℚ) • x) + v = ((1 : ℚ) / 2) • x + v
    rw [Vec.smul_smul_eq]
    norm_num

/-- Witness for the conjugate-translation contract: base functional the
conjugate of `L2NormSquared`, translation and evaluation points concrete. -/
theorem convex_conjugate_translation_witness :
    (dcVec 1).sp = Func.dom conjL2NS ∧
    wrongVec.sp ≠ Func.dom conjL2NS ∧
    (ConvexConjugateTranslation conjL2NS (.num 1) = .error .typeError ∧
     ConvexConjugateTranslation conjL2NS (.vec wrongVec) = .error .typeError ∧
     ConvexConjugateTranslation conjL2NS (.vec (dcVec 1))
       = .ok (.cctrans conjL2NS (dcVec 1)) ∧
     Func.eval (.cctrans conjL2NS (dcVec 1)) (dcVec 2)
       = conjL2NS.eval (dcVec 2) + Vec.inner (dcVec 2) (dcVec 1) ∧
     Func.grad (.cctrans conjL2NS (dcVec 1)) (dcVec 2)
       = conjL2NS.grad (dcVec 2) + dcVec 1 ∧
     Func.conjugate (.l2normSquare dcSpace)
       = .ok (.lmul (1 / 4) (.l2normSquare dcSpace)) ∧
     Func.eval (.cctrans (.lmul (1 / 4) (.l2normSquare dcSpace)) (dcVec 1)) (dcVec 2)
       = 1 / 4 * Vec.inner (dcVec 2) (dcVec 2) + Vec.inner (dcVec 2) (dcVec 1) ∧
     Func.grad (.cctrans (.lmul (1 / 4) (.l2normSquare dcSpace)) (dcVec 1)) (dcVec 2)
       = ((1 : ℚ) / 2) • dcVec 2 + dcVec 1) :=
  ⟨rfl, by decide,
    convex_conjugate_translation_spec conjL2NS (dcVec 1) wrongVec (dcVec 2) 1
      dcSpace rfl (by decide)⟩

/-- C7: adding a non-functional operand or a functional over another domain
fails with TypeError; the sum of two functionals over a common domain
evaluates and differentiates pointwise, and its generic proximal and
conjugate are unavailable (NotImplementedError). -/
theorem functional_sum_spec (F G H : Func) (O : Op) (x : Vec)
    (hdom : F.dom = G.dom) (hbad : F.dom ≠ H.dom) :
    Func.add F (.oper O) = .error .typeError ∧
    Func.add F (.func H) = .error .typeError ∧
    Func.add F (.func G) = .ok (.fsum F G) ∧
    Func.eval (.fsum F G) x = F.eval x + G.eval x ∧
    Func.grad (.fsum F G) x = F.grad x + G.grad x ∧
    Func.proximal (.fsum F G) = .error .notImplementedError ∧
    Func.conjugate (.fsum F G) = .error .notImplementedError := by
  refine ⟨rfl, ?_, ?_, rfl, rfl, rfl, rfl⟩
  · simp [Func.add, hbad]
  · simp [Func.add, hdom]

/-- Witness for the sum contract: `L2NormSquared + L1Norm` over the same
space, a plain operator operand, and an L1 functional over another space. -/
theorem functional_sum_witness :
    Func.dom (.l2normSquare dcSpace) = Func.dom (.l1norm dcSpace) ∧
    Func.dom (.l2normSquare dcSpace) ≠ Func.dom (.l1norm wrongSpace) ∧
    (Func.add (.l2normSquare dcSpace) (.oper (IdentityOperator dcSpace))
       = .error .typeError ∧
     Func.add (.l2normSquare dcSpace) (.func (.l1norm wrongSpace))
       = .error .typeError ∧
     Func.add (.l2normSquare dcSpace) (.func (.l1norm dcSpace))
       = .ok (.fsum (.l2normSquare dcSpace) (.l1norm dcSpace)) ∧
     Func.eval (.fsum (.l2normSquare dcSpace) (.l1norm dcSpace)) (dcVec 2)
       = Func.eval (.l2normSquare dcSpace) (dcVec 2)
         + Func.eval (.l1norm dcSpace) (dcVec 2) ∧
     Func.grad (.fsum (.l2normSquare dcSpace) (.l1norm dcSpace)) (dcVec 2)
       = Func.grad (.l2normSquare dcSpace) (dcVec 2)
         + Func.grad (.l1norm dcSpace) (dcVec 2) ∧
     Func.proximal (.fsum (.l2normSquare dcSpace) (.l1norm dcSpace))
       = .error .notImplementedError ∧
     Func.conjugate (.fsum (.l2normSquare dcSpace) (.l1norm dcSpace))
       = .error .notImplementedError) :=
  ⟨rfl, by decide,
    functional_sum_spec (.l2normSquare dcSpace) (.l1norm dcSpace)
      (.l1norm wrongSpace) (IdentityOperator dcSpace) (dcVec 2) rfl (by decide)⟩

/-- C8: right multiplication of a functional with a vector requires the
vector to lie in the functional's domain, else TypeError, and yields the
operator `x` mapsto `F(y * x)`; left multiplication accepts a vector from
any space and yields the operator `x` mapsto `F(x) * y`. -/
theorem multiplication_with_vector_spec (F : Func) (y z x : Vec)
    (hy : y.sp = F.dom) (hz : z.sp ≠ F.dom) :
    (∃ T, OperatorRightVectorMult F y = .ok T ∧ T x = F.eval (y * x)) ∧
    OperatorRightVectorMult F z = .error .typeError ∧
    FunctionalLeftVectorMult y F x = F.eval x • y ∧
    FunctionalLeftVectorMult z F x = F.eval x • z := by
  refine ⟨⟨fun x => F.eval (y * x), ?_, rfl⟩, ?_, rfl, rfl⟩
  · simp [OperatorRightVectorMult, hy]
  · simp [OperatorRightVectorMult, hz]

/-- Witness for the vector multiplication contract: `F = L1Norm`, one vector
of the domain and one of another space. -/
theorem multiplication_with_vector_witness :
    (dcVec 2).sp = Func.dom (.l1norm dcSpace) ∧
    wrongVec.sp ≠ Func.dom (.l1norm dcSpace) ∧
    ((∃ T, OperatorRightVectorMult (.l1norm dcSpace) (dcVec 2) = .ok T ∧
       T (dcVec 3) = Func.eval (.l1norm dcSpace) (dcVec 2 * dcVec 3)) ∧
     OperatorRightVectorMult (.l1norm dcSpace) wrongVec = .error .typeError ∧
     FunctionalLeftVectorMult (dcVec 2) (.l1norm dcSpace) (dcVec 3)
       = Func.eval (.l1norm dcSpace) (dcVec 3) • dcVec 2 ∧
     FunctionalLeftVectorMult wrongVec (.l1norm dcSpace) (dcVec 3)
       = Func.eval (.l1norm dcSpace) (dcVec 3) • wrongVec) :=
  ⟨rfl, by decide,
    multiplication_with_vector_spec (.l1norm dcSpace) (dcVec 2) wrongVec
      (dcVec 3) rfl (by decide)⟩

/-- C9: adding a non-real scalar to a functional fails with TypeError;
adding a real scalar shifts the value, leaves gradient and proximal
unchanged, and shifts the conjugate down by the scalar with unchanged
conjugate gradient. -/
theorem functional_plus_scalar_spec (F Fstar : Func) (p : ℚ → Vec → Vec)
    (c : ℚ) (ci : CScalar) (x y : Vec)
    (hci : ci.im ≠ 0) (hprox : F.proximal = .ok p)
    (hconj : F.conjugate = .ok Fstar) :
    F.plusScalar ci = .error .typeError ∧
    F.plusScalar ⟨c, 0⟩ = .ok (.scalarSum F c) ∧
    Func.eval (.scalarSum F c) x = F.eval x + c ∧
    Func.grad (.scalarSum F c) x = F.grad x ∧
    Func.proximal (.scalarSum F c) = .ok p ∧
    (∃ G, Func.conjugate (.scalarSum F c) = .ok G ∧
      G.eval y = Fstar.eval y - c ∧ G.grad y = Fstar.grad y) := by
  refine ⟨?_, ?_, rfl, rfl, ?_, ?_⟩
  · simp [Func.plusScalar, hci]
  · simp [Func.plusScalar]
  · show F.proximal = .ok p
    exact hprox
  · refine ⟨.scalarSum Fstar (-c), ?_, ?_, rfl⟩
    · simp only [Func.conjugate]
      rw [hconj]
      rfl
    · show Fstar.eval y + -c = Fstar.eval y - c
      ring

/-- Witness for the scalar sum contract: `F = L2NormSquared`, `c = 5`, a
genuinely complex scalar, concrete points. -/
theorem functional_plus_scalar_witness :
    (CScalar.mk 1 1).im ≠ 0 ∧
    Func.proximal (.l2normSquare dcSpace) = .ok proxL2NS ∧
    Func.conjugate (.l2normSquare dcSpace) = .ok conjL2NS ∧
    (Func.plusScalar (.l2normSquare dcSpace) ⟨1, 1⟩ = .error .typeError ∧
     Func.plusScalar (.l2normSquare dcSpace) ⟨5, 0⟩
       = .ok (.scalarSum (.l2normSquare dcSpace) 5) ∧
     Func.eval (.scalarSum (.l2normSquare dcSpace) 5) (dcVec 2)
       = Func.eval (.l2normSquare dcSpace) (dcVec 2) + 5 ∧
     Func.grad (.scalarSum (.l2normSquare dcSpace) 5) (dcVec 2)
       = Func.grad (.l2normSquare dcSpace) (dcVec 2) ∧
     Func.proximal (.scalarSum (.l2normSquare dcSpace) 5) = .ok proxL2NS ∧
     (∃ G, Func.conjugate (.scalarSum (.l2normSquare dcSpace) 5) = .ok G ∧
       G.eval (dcVec 3) = conjL2NS.eval (dcVec 3) - 5 ∧
       G.grad (dcVec 3) = conjL2NS.grad (dcVec 3))) :=
  ⟨by decide, rfl, rfl,
    functional_plus_scalar_spec (.l2normSquare dcSpace) conjL2NS proxL2NS
      5 ⟨1, 1⟩ (dcVec 2) (dcVec 3) (by decide) rfl rfl⟩

/-- C10: the proximal of the conjugate-translation transform is exactly the
quadratic perturbation of the base proximal with zero quadratic part and
linear part the translation, which for every step and point is the base
proximal evaluated at `x - sigma * y`; for the conjugate of `L2NormSquared`
it is `(x - sigma * y) / (sigma/2 + 1)`. -/
theorem convex_conjugate_translation_proximal_spec (B : Func)
    (p : ℚ → Vec → Vec) (y x : Vec) (σ : ℚ) (sp : Space)
    (hprox : B.proximal = .ok p) :
    Func.proximal (.cctrans B y) = .ok (proximal_quadratic_perturbation p 0 y) ∧
    proximal_quadratic_perturbation p 0 y σ x = p σ (x - σ • y) ∧
    (∃ q, Func.proximal (.cctrans (.lmul (1 / 4) (.l2normSquare sp)) y) = .ok q ∧
      q σ x = (1 / (σ / 2 + 1)) • (x - σ • y)) := by
  have hzero : ∀ (r : ℚ → Vec → Vec) (σ : ℚ) (x : Vec),
      proximal_quadratic_perturbation r 0 y σ x = r σ (x - σ • y) := by
    intro r σ x
    show r (σ * (1 / (2 * σ * 0 + 1))) ((1 / (2 * σ * 0 + 1)) • (x - σ • y))
        = r σ (x - σ • y)
    norm_num [Vec.one_smul_eq]
  refine ⟨?_, hzero p σ x, ?_⟩
  · simp only [Func.proximal]
    rw [hprox]
    rfl
  · refine ⟨proximal_quadratic_perturbation
      (fun t z => (1 / (2 * (t * (1 / 4)) + 1)) • z) 0 y, ?_, ?_⟩
    · simp only [Func.proximal]
      rw [if_neg (by norm_num : ¬ ((1 : ℚ) / 4) ≤ 0)]
      rfl
    · rw [hzero]
      show (1 / (2 * (σ * (1 / 4)) + 1)) • (x - σ • y)
          = (1 / (σ / 2 + 1)) • (x - σ • y)
      rw [show (2 * (σ * (1 / 4)) + 1 : ℚ) = σ / 2 + 1 from by ring]

/-- Witness for the conjugate-translation proximal: base functional the
conjugate of `L2NormSquared`, concrete translation, step and point. -/
theorem convex_conjugate_translation_proximal_witness :
    Func.proximal conjL2NS = .ok (fun t z => (1 / (2 * (t * (1 / 4)) + 1)) • z) ∧
    (Func.proximal (.cctrans conjL2NS (dcVec 1))
       = .ok (proximal_quadratic_perturbation
           (fun t z => (1 / (2 * (t * (1 / 4)) + 1)) • z) 0 (dcVec 1)) ∧
     proximal_quadratic_perturbation
       (fun t z => (1 / (2 * (t * (1 / 4)) + 1)) • z) 0 (dcVec 1) 1 (dcVec 2)
       = (fun (t : ℚ) (z : Vec) => (1 / (2 * (t * (1 / 4)) + 1)) • z) 1
           (dcVec 2 - (1 : ℚ) • dcVec 1) ∧
     (∃ q, Func.proximal (.cctrans (.lmul (1 / 4) (.l2normSquare dcSpace)) (dcVec 1))
        = .ok q ∧
       q 1 (dcVec 2) = (1 / ((1 : ℚ) / 2 + 1)) • (dcVec 2 - (1 : ℚ) • dcVec 1))) :=
  ⟨rfl,
    convex_conjugate_translation_proximal_spec conjL2NS
      (fun t z => (1 / (2 * (t * (1 / 4)) + 1)) • z) (dcVec 1) (dcVec 2) 1
      dcSpace rfl⟩

set_option maxRecDepth 1000000

/-- C1: on the one-dimensional d.c. problem `min 1/4 (x - 1/2)^2 - |x|`
(`g = a/2 * L2NormSquared translated by b` with `a = b = 1/2`, `h = L1Norm`)
started at `x = -1/2` with `niter = 50` (and `gamma = mu = 1`, `phi` the zero
functional, `K` the identity, dual start `y = 3`), each of the three solvers
`dca`, `prox_dca` and `doubleprox_dc` runs its fixed iteration count without
error and its result lies within absolute tolerance 1e-6 of the nearest
point of the solution set `[b - 1/a, 0, b + 1/a] = [-3/2, 0, 5/2]`. -/
theorem dc_solvers_converge :
    isOkE (dca dcX0 dcG dcH 50) = true ∧
    minDistQ (headQ (dca dcX0 dcG dcH 50)) ≤ 1 / 1000000 ∧
    isOkE (prox_dca dcX0 dcG dcH 50 1) = true ∧
    minDistQ (headQ (prox_dca dcX0 dcG dcH 50 1)) ≤ 1 / 1000000 ∧
    isOkE (fstE (doubleprox_dc dcX0 dcY0 dcG dcH dcPhi dcK 50 1 1)) = true ∧
    minDistQ (headQ (fstE (doubleprox_dc dcX0 dcY0 dcG dcH dcPhi dcK 50 1 1)))
      ≤ 1 / 1000000 := by
  decide
